import Mathlib

/-!
# Verification of the ingestor pipeline against its specification

Shallow embedding of the path handling, safe extraction, content storage,
database upsert and IOC scanning code of the repository, together with
theorems settling the specification claims.

Conventions of the embedding:
* Absolute POSIX paths are lists of components (`Path`); `pathStr` renders
  them the way `str(PosixPath(...))` does.
* The filesystem is symlink-free, so `Path.resolve()` is pure `..`/`.`
  normalisation.
* Python strings are Lean `String`s (in Lean 4.14 a `String` wraps a
  `List Char`, so all operations are kernel-computable).
-/

namespace Ingestor

/-! ## Python string primitives

Structurally recursive versions of the string operations the source uses,
over `List Char` (so that every theorem below can be settled by kernel
reduction). -/

/-- Split a character list at every occurrence of `c`, as Python
`str.split(c)` (so the empty string yields one empty field). -/
def splitOnChar (c : Char) : List Char → List (List Char)
  | [] => [[]]
  | x :: rest =>
    if x = c then [] :: splitOnChar c rest
    else
      match splitOnChar c rest with
      | g :: gs => (x :: g) :: gs
      | [] => [[x]]

/-- Python `s.startswith(pre)`. -/
def strStartsWith (s pre : String) : Bool := pre.toList.isPrefixOf s.toList

/-- Python `s.lower()` (ASCII case mapping, which covers every string this
development lowers). -/
def lowerStr (s : String) : String := String.mk (s.toList.map Char.toLower)

/-! ## Path model (`pathlib.PurePosixPath` + `resolve` on a symlink-free tree) -/

/-- An absolute POSIX path, as its list of components ("/a/b" is `["a","b"]`). -/
abbrev Path := List String

/-- One step of POSIX path normalisation: empty and `.` components vanish,
`..` pops the last component (staying at the root when there is none). -/
def normStep (acc : List String) (c : String) : List String :=
  if c = "" || c = "." then acc
  else if c = ".." then acc.dropLast
  else acc ++ [c]

/-- `Path.resolve()` on a symlink-free filesystem: eliminate `""`, `.` and
`..` components of an absolute path. -/
def normalize (p : List String) : Path := p.foldl normStep []

/-- Join path components with `/` separators. -/
def joinComponents : List String → String
  | [] => ""
  | [c] => c
  | c :: rest => c ++ "/" ++ joinComponents rest

/-- The string form of an absolute path, as `str()` of a `PosixPath`. -/
def pathStr (p : Path) : String := "/" ++ joinComponents p

/-- `base / user` followed by `resolve()`: an absolute `user` discards the
base (as the `pathlib` `/` operator does); relative components are appended,
then the whole path is normalised. -/
def resolveJoin (base : Path) (user : String) : Path :=
  let comps := (splitOnChar '/' user.toList).map String.mk
  match user.toList with
  | '/' :: _ => normalize comps
  | _ => normalize (base ++ comps)

/-- `a` is an ancestor of `b` in the directory-tree sense: the component
list of `a` is a prefix of the component list of `b`. -/
def isAncestor : Path → Path → Bool
  | [], _ => true
  | _, [] => false
  | a :: as_, b :: bs => a = b && isAncestor as_ bs

/-- Error raised by `validate_safe_path` (the source raises `ValueError`,
which the spec calls `TraversalError`). -/
inductive PathError where
  | traversal
deriving DecidableEq, Repr

/-- From `src/infrastructure/storage/hash_utils.py`: resolve `base / user`
and accept it iff the *string form* of the result starts with the string
form of the resolved base (the source tests
`str(resolved).startswith(str(base_path.resolve()))`). -/
def validate_safe_path (base : Path) (user : String) : Except PathError Path :=
  let resolved := resolveJoin base user
  if strStartsWith (pathStr resolved) (pathStr (normalize base)) then
    .ok resolved
  else
    .error .traversal

/-! ## SafeExtractor (`IngestionService._safe_extract`) -/

/-- One archive member, with the name and declared uncompressed size reported
by `namelist()` / `infolist()`. -/
structure ArchiveEntry where
  filename : String
  file_size : Nat
deriving DecidableEq, Repr

/-- An archive: the file name on disk (whose suffix selects the branch) and
the entry listing. -/
structure Archive where
  name : String
  entries : List ArchiveEntry
deriving DecidableEq, Repr

/-- `PurePath.suffix`: the part of the last component from its last dot on,
and empty when that dot is absent, leading, or trailing (CPython keeps
`name[i:]` only when `0 < i < len(name) - 1` for `i = name.rfind(".")`). -/
def pathSuffix (name : String) : String :=
  let cs := (splitOnChar '/' name.toList).getLastD []
  let tailAfterDot := (cs.reverse.takeWhile (· ≠ '.')).reverse
  if tailAfterDot.length < cs.length then
    let i := cs.length - tailAfterDot.length - 1
    if 0 < i ∧ i < cs.length - 1 then String.mk ('.' :: tailAfterDot) else ""
  else ""

/-- Errors of `_safe_extract` (the source raises `ValueError` with distinct
messages; the spec calls the first three `UnsafeArchive` and the last
`UnsupportedFormat`). -/
inductive ExtractError where
  | tooManyEntries
  | totalSizeExceeded
  | pathTraversal
  | unsupportedFormat
deriving DecidableEq, Repr

/-- The three members of the error type the spec groups as `UnsafeArchive`. -/
def ExtractError.isUnsafeArchive : ExtractError → Bool
  | .tooManyEntries => true
  | .totalSizeExceeded => true
  | .pathTraversal => true
  | .unsupportedFormat => false

/-- The per-entry validation of `_safe_extract`:
`str((extract_dir / member.filename).resolve()).startswith(str(extract_dir.resolve()))`. -/
def memberNameOk (extractDir : Path) (m : ArchiveEntry) : Bool :=
  strStartsWith (pathStr (resolveJoin extractDir m.filename))
    (pathStr (normalize extractDir))

/-- Where `extractall` writes a member: CPython's
`ZipFile._extract_member` (and rarfile's name sanitisation) split the
member name on the separator, drop every `''`, `.` and `..` component
(`invalid_path_parts`), join the remainder under the target directory and
`os.path.normpath` the result. -/
def extractMemberPath (extractDir : Path) (name : String) : Path :=
  normalize (extractDir ++
    ((splitOnChar '/' name.toList).map String.mk).filter
      (fun c => !(c == "" || c == "." || c == "..")))

/-- The body shared verbatim by the `.rar` and `.zip` branches of
`_safe_extract`: the entry-count guard, the declared-size guard, then the
per-entry name validation, and only then `extractall` — which writes every
member at `extractMemberPath` (the libraries drop `''`/`.`/`..` components
before joining).  An error result means nothing was written. -/
def checkAndExtract (entries : List ArchiveEntry) (extractDir : Path) :
    Except ExtractError (List Path) :=
  if entries.length > 1000 then .error .tooManyEntries
  else if (entries.map (·.file_size)).sum > 10 * 1024 * 1024 * 1024 then
    .error .totalSizeExceeded
  else if entries.all (memberNameOk extractDir) then
    .ok (entries.map (fun m => extractMemberPath extractDir m.filename))
  else .error .pathTraversal

/-- `IngestionService._safe_extract`: dispatch on the lower-cased suffix; the
`.rar` and `.zip` branches run the same guards and extraction. -/
def safe_extract (archive : Archive) (extractDir : Path) :
    Except ExtractError (List Path) :=
  if lowerStr (pathSuffix archive.name) = ".rar" then
    checkAndExtract archive.entries extractDir
  else if lowerStr (pathSuffix archive.name) = ".zip" then
    checkAndExtract archive.entries extractDir
  else .error .unsupportedFormat

/-! ## Theorems about path validation and safe extraction -/

/-- Folding normalisation over components that are not `""`, `.` or `..`
just appends them. -/
theorem foldl_normStep_clean (acc : List String) (cs : List String)
    (h : ∀ c ∈ cs, c ≠ "" ∧ c ≠ "." ∧ c ≠ "..") :
    cs.foldl normStep acc = acc ++ cs := by
  induction cs generalizing acc with
  | nil => simp
  | cons c rest ih =>
    obtain ⟨h1, h2, h3⟩ := h c (List.mem_cons_self c rest)
    have hstep : normStep acc c = acc ++ [c] := by
      unfold normStep
      rw [if_neg (by simp [h1, h2]), if_neg h3]
    simp only [List.foldl_cons, hstep]
    rw [ih (acc ++ [c]) (fun x hx => h x (List.mem_cons_of_mem c hx))]
    simp

/-- A path is an ancestor of every extension of itself. -/
theorem isAncestor_append (a x : List String) : isAncestor a (a ++ x) = true := by
  induction a with
  | nil => simp [isAncestor]
  | cons c rest ih => simp [isAncestor, ih]

/-- Every path `extractall` writes is under the canonical target: after the
libraries drop `''`/`.`/`..` components, the remaining components extend
the normalised target directory. -/
theorem extractMemberPath_isAncestor (d : Path) (name : String) :
    isAncestor (normalize d) (extractMemberPath d name) = true := by
  have hclean : ∀ c ∈ ((splitOnChar '/' name.toList).map String.mk).filter
      (fun c => !(c == "" || c == "." || c == "..")),
      c ≠ "" ∧ c ≠ "." ∧ c ≠ ".." := by
    intro c hc
    have hp := (List.mem_filter.mp hc).2
    simp only [Bool.not_eq_true', Bool.or_eq_false_iff, beq_eq_false_iff_ne,
      ne_eq] at hp
    exact ⟨hp.1.1, hp.1.2, hp.2⟩
  have heq : extractMemberPath d name = normalize d ++
      ((splitOnChar '/' name.toList).map String.mk).filter
        (fun c => !(c == "" || c == "." || c == "..")) := by
    unfold extractMemberPath normalize
    rw [List.foldl_append]
    exact foldl_normStep_clean _ _ hclean
  rw [heq]
  exact isAncestor_append _ _

/-- Characterisation of the shared extraction body: it succeeds exactly when
both bomb guards and every per-entry name validation pass, and then the
written paths are the extraction targets of all entry names. -/
theorem checkAndExtract_eq_ok (entries : List ArchiveEntry) (d : Path)
    (paths : List Path) :
    checkAndExtract entries d = .ok paths ↔
      entries.length ≤ 1000
      ∧ (entries.map (·.file_size)).sum ≤ 10 * 1024 * 1024 * 1024
      ∧ entries.all (memberNameOk d) = true
      ∧ paths = entries.map (fun m => extractMemberPath d m.filename) := by
  unfold checkAndExtract
  split_ifs with h1 h2 h3
  · exact ⟨(fun h => nomatch h), fun ⟨hc, _, _, _⟩ => absurd h1 (by omega)⟩
  · exact ⟨(fun h => nomatch h), fun ⟨_, hs, _, _⟩ => absurd h2 (by omega)⟩
  · constructor
    · intro h
      injection h with h
      exact ⟨by omega, by omega, h3, h.symm⟩
    · rintro ⟨-, -, -, rfl⟩
      rfl
  · exact ⟨(fun h => nomatch h), fun ⟨_, _, hall, _⟩ => absurd hall h3⟩

/-- Claim C2 as stated is false on the code: `validate_safe_path` accepts an
input that resolves to a sibling directory whose name merely extends the
base's name as a string, and the result does not have the canonical base as
a directory-tree ancestor. -/
theorem validate_safe_path_accepts_sibling :
    validate_safe_path ["data", "store"] "../storeX/f"
        = .ok ["data", "storeX", "f"]
    ∧ isAncestor (normalize ["data", "store"]) ["data", "storeX", "f"] = false :=
  ⟨rfl, rfl⟩

/-- Claim C2 (amended): for every base and user path, `validate_safe_path`
either fails with a traversal error or returns the absolute canonical form
of base ⊕ user whose string form has the string form of the canonical base
as a *string* prefix (which admits sibling directories whose names extend
the base's last component, rather than guaranteeing a directory-tree
ancestor). -/
theorem validate_safe_path_string_guard (base : Path) (user : String) :
    validate_safe_path base user = .error .traversal
    ∨ (validate_safe_path base user = .ok (resolveJoin base user)
        ∧ strStartsWith (pathStr (resolveJoin base user)) (pathStr (normalize base))
            = true) := by
  cases h : strStartsWith (pathStr (resolveJoin base user)) (pathStr (normalize base))
  · exact Or.inl (by simp [validate_safe_path, h])
  · exact Or.inr ⟨by simp [validate_safe_path, h], rfl⟩

/-- Claim C1 as stated is false on the code: an archive entry whose
canonical form of target ⊕ entry_name does *not* remain within the target
(it resolves into a sibling directory whose name extends the target's name
as a string) passes every pre-extraction check, so the extraction succeeds
instead of failing with `UnsafeArchive` — the file itself is written inside
the target only because `extractall` drops the `..` component. -/
theorem safe_extract_accepts_escape :
    safe_extract ⟨"a.zip", [⟨"../ex/f", 1⟩]⟩ ["data", ".tmp", "e"]
        = .ok [["data", ".tmp", "e", "ex", "f"]]
    ∧ isAncestor (normalize ["data", ".tmp", "e"])
        (resolveJoin ["data", ".tmp", "e"] "../ex/f") = false :=
  ⟨rfl, rfl⟩

/-- Claim C1 (amended): all member names are validated before any member is
written and a failed guard aborts the extraction with nothing written;
after a successful extraction every produced file's canonical path lies
under the canonical target (the libraries drop `''`, `.` and `..`
components when writing); but an entry whose canonical form of
target ⊕ entry_name does not remain within the target need not make the
extraction fail — only an entry whose resolved path fails the string-prefix
comparison with the target raises `UnsafeArchive`. -/
theorem safe_extract_validates_before_writing (a : Archive) (d : Path) :
    (∀ paths, safe_extract a d = .ok paths →
        paths = a.entries.map (fun m => extractMemberPath d m.filename)
        ∧ ∀ p ∈ paths, isAncestor (normalize d) p = true)
    ∧ (lowerStr (pathSuffix a.name) = ".rar" ∨ lowerStr (pathSuffix a.name) = ".zip" →
        a.entries.length ≤ 1000 →
        (a.entries.map (·.file_size)).sum ≤ 10 * 1024 * 1024 * 1024 →
        (∃ m ∈ a.entries, memberNameOk d m = false) →
        safe_extract a d = .error .pathTraversal) := by
  constructor
  · intro paths hok
    have hbody : checkAndExtract a.entries d = .ok paths := by
      unfold safe_extract at hok
      split_ifs at hok <;> exact hok
    rw [checkAndExtract_eq_ok] at hbody
    obtain ⟨-, -, -, hpaths⟩ := hbody
    refine ⟨hpaths, ?_⟩
    intro p hp
    rw [hpaths] at hp
    obtain ⟨m, hm, rfl⟩ := List.mem_map.mp hp
    exact extractMemberPath_isAncestor d m.filename
  · intro hfmt hcount hsize hbad
    obtain ⟨m, hm, hmf⟩ := hbad
    have hall : ¬ (a.entries.all (memberNameOk d) = true) := by
      intro h
      have := List.all_eq_true.mp h m hm
      rw [hmf] at this
      cases this
    have hbody : checkAndExtract a.entries d = .error .pathTraversal := by
      unfold checkAndExtract
      rw [if_neg (by omega), if_neg (by omega), if_neg hall]
    unfold safe_extract
    rcases hfmt with h | h
    · rw [if_pos h]
      exact hbody
    · by_cases hr : lowerStr (pathSuffix a.name) = ".rar"
      · rw [if_pos hr]
        exact hbody
      · rw [if_neg hr, if_pos h]
        exact hbody

/-- Witness for the amended C1 theorem at concrete inputs: a clean archive
extracts to a path under the canonical target, and an archive with a
`../../etc/passwd` entry is rejected with nothing written. -/
theorem safe_extract_validates_before_writing_witness :
    (∀ p ∈ [["data", ".tmp", "e", "good.txt"]],
        isAncestor (normalize ["data", ".tmp", "e"]) p = true)
    ∧ safe_extract ⟨"a.zip", [⟨"../../etc/passwd", 1⟩]⟩ ["data", ".tmp", "e"]
        = .error .pathTraversal := by
  constructor
  · exact ((safe_extract_validates_before_writing
      ⟨"a.rar", [⟨"good.txt", 1⟩]⟩ ["data", ".tmp", "e"]).1
        [["data", ".tmp", "e", "good.txt"]] rfl).2
  · exact (safe_extract_validates_before_writing
      ⟨"a.zip", [⟨"../../etc/passwd", 1⟩]⟩ ["data", ".tmp", "e"]).2
      (Or.inr rfl) (by decide) (by decide)
      ⟨⟨"../../etc/passwd", 1⟩, by decide, by decide⟩

/-- Claim C5: for a supported archive whose entry names all pass the
per-entry validation, extraction raises an `UnsafeArchive` error exactly
when the entry count exceeds 1000 or the declared uncompressed sizes sum to
more than 10 GiB. -/
theorem safe_extract_bomb_guards (a : Archive) (d : Path)
    (hfmt : lowerStr (pathSuffix a.name) = ".rar" ∨
      lowerStr (pathSuffix a.name) = ".zip")
    (hsafe : ∀ m ∈ a.entries, memberNameOk d m = true) :
    (∃ e, safe_extract a d = .error e ∧ e.isUnsafeArchive = true) ↔
      a.entries.length > 1000
      ∨ (a.entries.map (·.file_size)).sum > 10 * 1024 * 1024 * 1024 := by
  have hall : a.entries.all (memberNameOk d) = true := List.all_eq_true.mpr hsafe
  have hdispatch : safe_extract a d = checkAndExtract a.entries d := by
    unfold safe_extract
    rcases hfmt with h | h
    · rw [if_pos h]
    · by_cases hr : lowerStr (pathSuffix a.name) = ".rar"
      · rw [if_pos hr]
      · rw [if_neg hr, if_pos h]
  rw [hdispatch]
  unfold checkAndExtract
  by_cases h1 : a.entries.length > 1000
  · rw [if_pos h1]
    exact ⟨fun _ => Or.inl h1, fun _ => ⟨.tooManyEntries, rfl, rfl⟩⟩
  · rw [if_neg h1]
    by_cases h2 : (a.entries.map (·.file_size)).sum > 10 * 1024 * 1024 * 1024
    · rw [if_pos h2]
      exact ⟨fun _ => Or.inr h2, fun _ => ⟨.totalSizeExceeded, rfl, rfl⟩⟩
    · rw [if_neg h2, if_pos hall]
      constructor
      · rintro ⟨e, he, -⟩
        exact (nomatch he)
      · rintro (h | h) <;> omega

/-- Witness for the C5 theorem: an archive of 1001 safely named entries is
rejected as unsafe. -/
theorem safe_extract_bomb_guards_witness :
    ∃ e, safe_extract ⟨"b.zip", List.replicate 1001 ⟨"a.txt", 1⟩⟩ ["d"] = .error e
        ∧ e.isUnsafeArchive = true :=
  (safe_extract_bomb_guards ⟨"b.zip", List.replicate 1001 ⟨"a.txt", 1⟩⟩ ["d"]
      (Or.inr rfl)
      (fun m hm => by rw [List.eq_of_mem_replicate hm]; rfl)).mpr
    (Or.inl (by rw [List.length_replicate]; omega))

/-! ## PathGuard: filename sanitisation (`StorageAdapter._sanitize_filename`) -/

/-- Python regex `\w` for `str` patterns: underscore or a character that
`str.isalnum` accepts.  The model is exact on code points below U+0100:
ASCII alphanumerics, the underscore, the Latin-1 letters ª µ º and À–ÿ
less × and ÷, and the numeric signs ¹ ² ³ ¼ ½ ¾.  Characters above that
range are word characters in Python but not here, so every
`sanitize_filename` theorem below restricts its input to this alphabet
(the `\b` uses of the scanner only ever see ASCII). -/
def pyWordChar (c : Char) : Bool :=
  if c.isAlphanum then true
  else if c = '_' then true
  else
    let n := c.toNat
    if n = 0xAA ∨ n = 0xB5 ∨ n = 0xBA then true
    else if n = 0xB2 ∨ n = 0xB3 ∨ n = 0xB9 ∨ n = 0xBC ∨ n = 0xBD ∨ n = 0xBE
    then true
    else if 0xC0 ≤ n ∧ n ≤ 0xFF ∧ n ≠ 0xD7 ∧ n ≠ 0xF7 then true
    else false

/-- A character the substitution regex `[^\w\-. ]+` leaves in place. -/
def keepChar (c : Char) : Bool :=
  pyWordChar c || c == '-' || c == '.' || c == ' '

mutual

/-- `re.sub(r"[^\w\-. ]+", "_", s)`: kept characters are copied and each
maximal run of other characters becomes a single underscore. -/
def subRuns : List Char → List Char
  | [] => []
  | c :: rest =>
    if keepChar c then c :: subRuns rest else '_' :: subSkip rest

/-- State inside a disallowed run whose underscore was already emitted. -/
def subSkip : List Char → List Char
  | [] => []
  | c :: rest =>
    if keepChar c then c :: subRuns rest else subSkip rest

end

/-- Python whitespace for `str.strip()` on the characters this development
strips (the kept alphabet contains no exotic Unicode spaces). -/
def pyIsSpaceChar (c : Char) : Bool :=
  c == ' ' || c == '\t' || c == '\n' || c == '\r' ||
  c == Char.ofNat 11 || c == Char.ofNat 12

/-- Drop the longest suffix whose characters satisfy `p`. -/
def dropEndWhile (p : Char → Bool) (l : List Char) : List Char :=
  (l.reverse.dropWhile p).reverse

/-- Python `str.strip(chars)`: drop matching characters from both ends. -/
def stripWhile (p : Char → Bool) (l : List Char) : List Char :=
  dropEndWhile p (l.dropWhile p)

/-- `StorageAdapter._sanitize_filename`: substitute disallowed runs, replace
an empty or all-dots-and-spaces result by `unnamed_file`, strip surrounding
whitespace and truncate to 255 characters.  Faithful to the source for
filenames over the Latin-1 alphabet on which `pyWordChar` models `\w`
exactly; the theorems below quantify only over such inputs. -/
def sanitize_filename (filename : String) : String :=
  let sanitized := subRuns filename.toList
  let sanitized :=
    if sanitized = [] ∨ stripWhile (fun c => c == '.' || c == ' ') sanitized = []
    then "unnamed_file".toList else sanitized
  String.mk ((stripWhile pyIsSpaceChar sanitized).take 255)

/-- The character class the spec's words prescribe for claim C3:
the ASCII set `[A-Za-z0-9_\-. ]`. -/
def specAsciiClass (c : Char) : Bool :=
  c.isAlphanum || c == '_' || c == '-' || c == '.' || c == ' '

/-! ## Theorems about filename sanitisation -/

/-- Both substitution states only ever emit kept characters or the
underscore. -/
theorem subRuns_subSkip_chars (P : Char → Bool)
    (hP : ∀ c, keepChar c = true → P c = true) (hu : P '_' = true) :
    ∀ l : List Char, (subRuns l).all P = true ∧ (subSkip l).all P = true := by
  intro l
  induction l with
  | nil => exact ⟨rfl, rfl⟩
  | cons c rest ih =>
    obtain ⟨ih1, ih2⟩ := ih
    constructor
    · simp only [subRuns]
      cases hc : keepChar c
      · simp [List.all_cons, hu, ih2]
      · simp [List.all_cons, hP c hc, ih1]
    · simp only [subSkip]
      cases hc : keepChar c
      · simpa using ih2
      · simp [List.all_cons, hP c hc, ih1]

/-- An element not matched by `p` survives `dropWhile p`. -/
theorem mem_dropWhile_of_not_mem (p : Char → Bool) :
    ∀ l : List Char, ∀ x ∈ l, p x = false → x ∈ l.dropWhile p := by
  intro l
  induction l with
  | nil => intro x hx; cases hx
  | cons c rest ih =>
    intro x hx hpx
    cases hc : p c
    · rw [List.dropWhile_cons_of_neg (by simp [hc])]
      exact hx
    · rw [List.dropWhile_cons_of_pos (by simp [hc])]
      rcases List.mem_cons.mp hx with rfl | hx
      · rw [hpx] at hc
        cases hc
      · exact ih x hx hpx

/-- An element not matched by `p` survives a two-sided strip by `p`. -/
theorem mem_stripWhile_of_not_mem (p : Char → Bool) (l : List Char) (x : Char)
    (hx : x ∈ l) (hpx : p x = false) : x ∈ stripWhile p l := by
  unfold stripWhile dropEndWhile
  have h1 : x ∈ l.dropWhile p := mem_dropWhile_of_not_mem p l x hx hpx
  have h2 : x ∈ (l.dropWhile p).reverse.dropWhile p :=
    mem_dropWhile_of_not_mem p _ x (List.mem_reverse.mpr h1) hpx
  exact List.mem_reverse.mpr h2

/-- Claim C3 as stated is false on the code: the substitution keeps Unicode
word characters, so `sanitize_filename` can return a string containing a
character outside the ASCII class `[A-Za-z0-9_\-. ]` (and a run of several
disallowed characters collapses into a single underscore rather than one
underscore per character). -/
theorem sanitize_filename_keeps_unicode :
    sanitize_filename "é" = "é"
    ∧ (sanitize_filename "é").toList.all specAsciiClass = false
    ∧ sanitize_filename "a!!b" = "a_b" :=
  ⟨rfl, rfl, rfl⟩

/-- Claim C3 (amended): for filenames over the Latin-1 alphabet on which
the embedding models Python's `\w` exactly, `sanitize_filename` replaces
each maximal run of characters outside `\w ∪ {-, ., space}` by one
underscore, so its result consists of word characters, hyphens, dots,
spaces and underscores (not only the ASCII class — Latin-1 word characters
such as é survive); it is non-empty (substituting `unnamed_file` when the
result is empty or strips to nothing but dots and spaces) and is truncated
to at most 255 characters (not bytes). -/
theorem sanitize_filename_amended (s : String)
    (_hlatin : ∀ c ∈ s.toList, c.toNat ≤ 0xFF) :
    (sanitize_filename s).length ≤ 255
    ∧ sanitize_filename s ≠ ""
    ∧ (sanitize_filename s).toList.all (fun c => keepChar c || c == '_') = true := by
  refine ⟨?_, ?_, ?_⟩
  · show ((stripWhile pyIsSpaceChar _).take 255).length ≤ 255
    rw [List.length_take]
    omega
  · simp only [sanitize_filename]
    by_cases hempty : subRuns s.toList = []
        ∨ stripWhile (fun c => c == '.' || c == ' ') (subRuns s.toList) = []
    · rw [if_pos hempty]
      intro h
      exact absurd (congrArg String.data h) (by decide)
    · rw [if_neg hempty]
      push_neg at hempty
      obtain ⟨-, hstrip⟩ := hempty
      obtain ⟨x, hx, hxd⟩ : ∃ x ∈ subRuns s.toList, (x == '.' || x == ' ') = false := by
        by_contra hall
        push_neg at hall
        apply hstrip
        have : (subRuns s.toList).dropWhile (fun c => c == '.' || c == ' ') = [] := by
          rw [List.dropWhile_eq_nil_iff]
          intro x hx
          rcases hb : (x == '.' || x == ' ') with _ | _
          · exact absurd hb (hall x hx)
          · simp [hb]
        unfold stripWhile
        rw [this]
        rfl
      have hxkeep : (keepChar x || x == '_') = true :=
        List.all_eq_true.mp
          ((subRuns_subSkip_chars (fun c => keepChar c || c == '_')
            (fun c hc => by simp [hc]) (by decide) s.toList).1)
          x hx
      have hxnospace : pyIsSpaceChar x = false := by
        rcases hsp : pyIsSpaceChar x with _ | _
        · rfl
        · exfalso
          unfold pyIsSpaceChar at hsp
          simp only [Bool.or_eq_true, beq_iff_eq] at hsp
          rcases hsp with ((((rfl | rfl) | rfl) | rfl) | rfl) | rfl
          · exact absurd hxd (by decide)
          all_goals exact absurd hxkeep (by decide)
      intro h
      have hdata : (stripWhile pyIsSpaceChar (subRuns s.toList)).take 255 = [] :=
        congrArg String.data h
      have hne : stripWhile pyIsSpaceChar (subRuns s.toList) ≠ [] :=
        List.ne_nil_of_mem
          (mem_stripWhile_of_not_mem pyIsSpaceChar _ x hx hxnospace)
      rw [List.take_eq_nil_iff] at hdata
      rcases hdata with h255 | hnil
      · exact absurd h255 (by decide)
      · exact hne hnil
  · simp only [sanitize_filename]
    by_cases hempty : subRuns s.toList = []
        ∨ stripWhile (fun c => c == '.' || c == ' ') (subRuns s.toList) = []
    · rw [if_pos hempty]
      decide
    · rw [if_neg hempty]
      apply List.all_eq_true.mpr
      intro x hx
      have hx1 : x ∈ stripWhile pyIsSpaceChar (subRuns s.toList) :=
        List.take_subset 255 _ hx
      have hx2 : x ∈ subRuns s.toList := by
        have h1 := (List.dropWhile_sublist (p := pyIsSpaceChar)
          (l := ((subRuns s.toList).dropWhile pyIsSpaceChar).reverse)).subset
          (List.mem_reverse.mp hx1)
        have h2 := (List.dropWhile_sublist (p := pyIsSpaceChar)
          (l := subRuns s.toList)).subset (List.mem_reverse.mp h1)
        exact h2
      exact List.all_eq_true.mp
        ((subRuns_subSkip_chars (fun c => keepChar c || c == '_')
            (fun c hc => by simp [hc]) (by decide) s.toList).1)
        x hx2

/-- Witness for the amended C3 theorem at a concrete Latin-1 filename
mixing kept characters, a disallowed run and an accented letter. -/
theorem sanitize_filename_amended_witness :
    (sanitize_filename "tes te//é.rar").length ≤ 255
    ∧ sanitize_filename "tes te//é.rar" ≠ ""
    ∧ (sanitize_filename "tes te//é.rar").toList.all
        (fun c => keepChar c || c == '_') = true :=
  sanitize_filename_amended "tes te//é.rar" (by decide)

/-! ## ContentStore (`StorageAdapter.persist_file`)

The filesystem is an association list from absolute paths to file contents;
directories need no representation because `mkdir(parents=True,
exist_ok=True)` never fails and never touches files. -/

/-- A flat view of the filesystem: each regular file's absolute path and its
byte content. -/
abbrev FS := List (Path × String)

/-- The content stored at a path, if any. -/
def fsLookup : FS → Path → Option String
  | [], _ => none
  | e :: rest, p => if e.1 = p then some e.2 else fsLookup rest p

/-- `Path.unlink`: remove the file at `p` (no error when absent, matching
`missing_ok=True`). -/
def fsErase : FS → Path → FS
  | [], _ => []
  | e :: rest, p => if e.1 = p then fsErase rest p else e :: fsErase rest p

/-- Create or replace the file at `p` with content `v`. -/
def fsInsert (fs : FS) (p : Path) (v : String) : FS :=
  (p, v) :: fsErase fs p

/-- Error raised by `persist_file` when the temp file is gone (the source
raises `FileNotFoundError`). -/
inductive StorageError where
  | fileNotFound
deriving DecidableEq, Repr

/-- The deterministic target `base/AB/CD/<hash>/<sanitized name>` computed
by `persist_file` (`AB`, `CD` are `file_hash[:2]` and `file_hash[2:4]`). -/
def canonicalTarget (base : Path) (file_hash original_filename : String) : Path :=
  base ++ [String.mk (file_hash.toList.take 2),
    String.mk ((file_hash.toList.drop 2).take 2),
    file_hash, sanitize_filename original_filename]

/-- `StorageAdapter.persist_file`: fail when the temp file is absent;
compute the canonical target; when the target already exists delete the
temp file and return the target; otherwise move the temp file there (the
source's rename and its copy-then-unlink fallback leave the same state) and
return the target. -/
def persist_file (fs : FS) (base : Path) (temp_path : Path)
    (file_hash original_filename : String) :
    Except StorageError (FS × Path) :=
  match fsLookup fs temp_path with
  | none => .error .fileNotFound
  | some content =>
    let final_path := canonicalTarget base file_hash original_filename
    if (fsLookup fs final_path).isSome then
      .ok (fsErase fs temp_path, final_path)
    else
      .ok (fsInsert (fsErase fs temp_path) final_path content, final_path)

/-! ## Theorems about `persist_file` -/

/-- Erasing a path removes it. -/
theorem fsLookup_fsErase_self (fs : FS) (p : Path) :
    fsLookup (fsErase fs p) p = none := by
  induction fs with
  | nil => rfl
  | cons e rest ih =>
    simp only [fsErase]
    by_cases he : e.1 = p
    · rw [if_pos he]
      exact ih
    · rw [if_neg he]
      simp only [fsLookup]
      rw [if_neg he]
      exact ih

/-- Erasing one path leaves every other path untouched. -/
theorem fsLookup_fsErase_of_ne (fs : FS) (p q : Path) (h : p ≠ q) :
    fsLookup (fsErase fs q) p = fsLookup fs p := by
  induction fs with
  | nil => rfl
  | cons e rest ih =>
    simp only [fsErase]
    by_cases heq : e.1 = q
    · rw [if_pos heq]
      simp only [fsLookup]
      rw [if_neg (fun hc : e.1 = p => h ((hc ▸ heq : p = q)))]
      exact ih
    · rw [if_neg heq]
      simp only [fsLookup]
      by_cases hep : e.1 = p
      · rw [if_pos hep, if_pos hep]
      · rw [if_neg hep, if_neg hep]
        exact ih

/-- Claim C4: with the temp file present, `persist_file` succeeds, returns
exactly `base/fp[0:2]/fp[2:4]/fp/sanitize(name)`, and afterwards the temp
file no longer exists; when the target already existed the filesystem
change is exactly the deletion of the temp file; with the temp file absent
it fails with the IO error. -/
theorem persist_file_spec (fs : FS) (base temp : Path)
    (fh name : String) :
    (fsLookup fs temp = none →
        persist_file fs base temp fh name = .error .fileNotFound)
    ∧ (∀ v, fsLookup fs temp = some v →
        ∃ fsOut,
          persist_file fs base temp fh name
              = .ok (fsOut, canonicalTarget base fh name)
          ∧ fsLookup fsOut temp = none
          ∧ ((fsLookup fs (canonicalTarget base fh name)).isSome →
              fsOut = fsErase fs temp)) := by
  constructor
  · intro hnone
    simp only [persist_file, hnone]
  · intro v hv
    simp only [persist_file, hv]
    by_cases hex : (fsLookup fs (canonicalTarget base fh name)).isSome
    · rw [if_pos hex]
      exact ⟨fsErase fs temp, rfl, fsLookup_fsErase_self fs temp, fun _ => rfl⟩
    · rw [if_neg hex]
      have hne : temp ≠ canonicalTarget base fh name := by
        intro heq
        apply hex
        rw [← heq, hv]
        rfl
      refine ⟨_, rfl, ?_, fun hc => absurd hc hex⟩
      show fsLookup (fsInsert (fsErase fs temp) (canonicalTarget base fh name) v)
        temp = none
      simp only [fsInsert, fsLookup]
      rw [if_neg (fun hc : canonicalTarget base fh name = temp => hne hc.symm)]
      rw [fsLookup_fsErase_of_ne _ temp _ hne]
      exact fsLookup_fsErase_self fs temp

/-- Witness for the C4 theorem at a concrete filesystem: a present temp
file is persisted to the canonical target and disappears; an absent temp
file makes `persist_file` fail. -/
theorem persist_file_spec_witness :
    (∃ fsOut,
        persist_file [(["b", ".tmp", "t"], "payload")] ["b"] ["b", ".tmp", "t"]
            "abcd" "x.zip"
            = .ok (fsOut, canonicalTarget ["b"] "abcd" "x.zip")
        ∧ fsLookup fsOut ["b", ".tmp", "t"] = none)
    ∧ persist_file [] ["b"] ["b", ".tmp", "t"] "abcd" "x.zip"
        = .error .fileNotFound := by
  constructor
  · obtain ⟨fsOut, h1, h2, -⟩ :=
      (persist_file_spec [(["b", ".tmp", "t"], "payload")] ["b"] ["b", ".tmp", "t"]
        "abcd" "x.zip").2 "payload" rfl
    exact ⟨fsOut, h1, h2⟩
  · exact (persist_file_spec [] ["b"] ["b", ".tmp", "t"] "abcd" "x.zip").1 rfl

/-- Claim C8: when the canonical target already exists, `persist_file` only
deletes the temp file — the stored file keeps exactly its old bytes, so a
second `persist` with the same fingerprint and name never modifies what the
first call stored. -/
theorem persist_file_never_overwrites (fs : FS) (base temp : Path)
    (fh name : String) (v w : String)
    (htemp : fsLookup fs temp = some v)
    (htarget : fsLookup fs (canonicalTarget base fh name) = some w)
    (hne : temp ≠ canonicalTarget base fh name) :
    persist_file fs base temp fh name
        = .ok (fsErase fs temp, canonicalTarget base fh name)
    ∧ fsLookup (fsErase fs temp) (canonicalTarget base fh name) = some w := by
  constructor
  · simp only [persist_file, htemp, htarget]
    rfl
  · rw [fsLookup_fsErase_of_ne fs _ temp (fun h => hne h.symm)]
    exact htarget

/-- Witness for the C8 theorem: with target and temp both present, the
target's bytes survive the call unchanged. -/
theorem persist_file_never_overwrites_witness :
    persist_file [(canonicalTarget ["b"] "abcd" "x.zip", "old"),
        (["b", ".tmp", "t"], "new")] ["b"] ["b", ".tmp", "t"] "abcd" "x.zip"
        = .ok (fsErase [(canonicalTarget ["b"] "abcd" "x.zip", "old"),
            (["b", ".tmp", "t"], "new")] ["b", ".tmp", "t"],
          canonicalTarget ["b"] "abcd" "x.zip")
    ∧ fsLookup (fsErase [(canonicalTarget ["b"] "abcd" "x.zip", "old"),
          (["b", ".tmp", "t"], "new")] ["b", ".tmp", "t"])
        (canonicalTarget ["b"] "abcd" "x.zip") = some "old" :=
  persist_file_never_overwrites _ ["b"] ["b", ".tmp", "t"] "abcd" "x.zip"
    "new" "old" (by decide) (by decide) (by decide)

/-! ## Repository (`DatabaseAdapter`)

The two tables the claims touch, as row lists.  Timestamps are abstract
ticks; `NOW()` is passed in as `now`. -/

/-- The kinds of extracted indicators. -/
inductive IndicatorType where
  | domain
  | email
  | ipv4
deriving DecidableEq, Repr

/-- An indicator produced by the scanner (`ExtractedIndicator` in
`src/domain/models.py`, without the wall-clock `extracted_at` field). -/
structure ExtractedIndicator where
  indicator_type : IndicatorType
  value : String
  source_file_hash : String
  source_relative_path : String
  source_line : Nat
  channel_id : Int
deriving DecidableEq, Repr

/-- A row of the `extracted_indicators` table. -/
structure IndicatorRow where
  indicator_type : IndicatorType
  value : String
  source_file_hash : String
  source_relative_path : String
  source_line : Nat
  channel_id : Int
  first_seen_at : Nat
  last_seen_at : Nat
deriving DecidableEq, Repr

/-- The table's unique key `(indicator_type, value, source_file_hash,
source_line)`, which is also the predicate of the `DO UPDATE ... WHERE`
clause. -/
def indicatorKeyMatches (ind : ExtractedIndicator) (r : IndicatorRow) : Bool :=
  r.indicator_type = ind.indicator_type && r.value = ind.value
    && r.source_file_hash = ind.source_file_hash && r.source_line = ind.source_line

/-- The SQL `INSERT ... ON CONFLICT (...) DO UPDATE SET last_seen_at = NOW()
WHERE <key matches>` of `persist_indicator`, together with the command tag
the driver hands back.  Per the PostgreSQL documentation the tag of an
`INSERT` is `INSERT oid count` where `count` counts the rows *inserted or
updated*, so the conflicting branch also reports `INSERT 0 1`. -/
def sqlInsertIndicator (tbl : List IndicatorRow) (ind : ExtractedIndicator)
    (now : Nat) : List IndicatorRow × String :=
  if tbl.any (indicatorKeyMatches ind) then
    (tbl.map (fun r =>
        if indicatorKeyMatches ind r then { r with last_seen_at := now } else r),
      "INSERT 0 1")
  else
    (tbl ++
      [{ indicator_type := ind.indicator_type, value := ind.value,
         source_file_hash := ind.source_file_hash,
         source_relative_path := ind.source_relative_path,
         source_line := ind.source_line, channel_id := ind.channel_id,
         first_seen_at := now, last_seen_at := now }],
      "INSERT 0 1")

/-- `DatabaseAdapter.persist_indicator`: run the upsert and return
`result.startswith("INSERT")`. -/
def persist_indicator (tbl : List IndicatorRow) (ind : ExtractedIndicator)
    (now : Nat) : List IndicatorRow × Bool :=
  let out := sqlInsertIndicator tbl ind now
  (out.1, strStartsWith out.2 "INSERT")

/-- A row of the `processing_jobs` table. -/
structure JobRow where
  job_id : String
  telegram_file_id : String
  status : String
  error : Option String
  file_hash : Option String
  created_at : Nat
  updated_at : Nat
deriving DecidableEq, Repr

/-- SQL `COALESCE(a, b)`. -/
def coalesce (a b : Option String) : Option String :=
  match a with
  | some x => some x
  | none => b

/-- `DatabaseAdapter.update_job_status`: `UPDATE processing_jobs SET
status = $1, error = $2, updated_at = NOW(), file_hash = COALESCE($3,
file_hash) WHERE job_id = $4` (`error` and `file_hash` default to `None` at
the call sites that omit them). -/
def update_job_status (tbl : List JobRow) (job_id status : String)
    (error : Option String) (file_hash : Option String) (now : Nat) :
    List JobRow :=
  tbl.map (fun r =>
    if r.job_id = job_id then
      { r with status := status, error := error, updated_at := now,
               file_hash := coalesce file_hash r.file_hash }
    else r)

/-! ## Theorems about the repository operations -/

/-- Claim C6 fails against PostgreSQL's actual command tags: calling
`persist_indicator` twice with the same identity leaves a single row and
touches `last_seen_at`, but the second call returns `true`, not `false`,
because the conflict branch's command tag is also `INSERT 0 1` (the code's
own comment expects `UPDATE 1` there).  Here the first call inserts and
returns `true`; the duplicate call keeps one row, advances `last_seen_at`,
and still returns `true`. -/
theorem persist_indicator_duplicate_returns_true :
    let ind : ExtractedIndicator :=
      { indicator_type := .domain, value := "example.com",
        source_file_hash := "h", source_relative_path := "p",
        source_line := 1, channel_id := 7 }
    let first := persist_indicator [] ind 0
    let second := persist_indicator first.1 ind 5
    first.2 = true
    ∧ second.2 = true
    ∧ second.1.length = 1
    ∧ (second.1.map (·.last_seen_at)) = [5] := by
  exact ⟨rfl, rfl, rfl, rfl⟩

/-- Claim C10: `update_job_status` overwrites the matched row's `error`
column with exactly the argument (so omitting it clears a recorded error),
while `file_hash` is coalesced — a `none` argument preserves the stored
hash; rows with other job ids are untouched. -/
theorem update_job_status_spec (tbl : List JobRow) (jid st : String)
    (err fh : Option String) (now : Nat) (i : Nat) (r : JobRow)
    (hr : tbl[i]? = some r) :
    ∃ r', (update_job_status tbl jid st err fh now)[i]? = some r'
      ∧ (r.job_id = jid →
          r'.status = st ∧ r'.error = err ∧ r'.updated_at = now
          ∧ r'.file_hash = coalesce fh r.file_hash
          ∧ (fh = none → r'.file_hash = r.file_hash)
          ∧ r'.job_id = r.job_id)
      ∧ (r.job_id ≠ jid → r' = r) := by
  have hmap : (update_job_status tbl jid st err fh now)[i]? =
      some (if r.job_id = jid then
              { r with status := st, error := err, updated_at := now,
                       file_hash := coalesce fh r.file_hash }
            else r) := by
    unfold update_job_status
    rw [List.getElem?_map, hr]
    rfl
  by_cases hjid : r.job_id = jid
  · rw [if_pos hjid] at hmap
    refine ⟨_, hmap, fun _ => ⟨rfl, rfl, rfl, rfl, ?_, rfl⟩,
      fun hc => absurd hjid hc⟩
    intro hfh
    rw [hfh]
    rfl
  · rw [if_neg hjid] at hmap
    exact ⟨r, hmap, fun hc => absurd hc hjid, fun _ => rfl⟩

/-- The concrete job row used by the C10 witness: a failed job carrying an
error string and a recorded fingerprint. -/
def failedJobRow : JobRow :=
  { job_id := "j1", telegram_file_id := "t", status := "failed",
    error := some "boom", file_hash := some "abcd",
    created_at := 0, updated_at := 1 }

/-- Witness for the C10 theorem: the `COMPLETED` update that passes no
error clears a previously recorded error string, while a `none` fingerprint
argument leaves the stored fingerprint in place. -/
theorem update_job_status_spec_witness :
    ∃ r', (update_job_status [failedJobRow] "j1" "completed" none none 9)[0]?
        = some r'
      ∧ (r'.status = "completed" ∧ r'.error = none ∧ r'.updated_at = 9
          ∧ r'.file_hash = coalesce none (some "abcd")
          ∧ (none = (none : Option String) → r'.file_hash = some "abcd")
          ∧ r'.job_id = "j1")
      ∧ ("j1" ≠ "j1" → r' = failedJobRow) := by
  obtain ⟨r', h1, h2, h3⟩ :=
    update_job_status_spec [failedJobRow] "j1" "completed" none none 9 0
      failedJobRow rfl
  exact ⟨r', h1, h2 rfl, h3⟩

/-! ## A backtracking regex engine

The scanner's patterns use only character classes, literals, the greedy
quantifiers `?`, `*`, `+` and `{2,}` over single-character classes,
ordered alternation and the word boundary `\b` — a fragment small enough
to execute with an explicit backtracking matcher whose priority order is
exactly that of Python's `re` engine. -/

/-- A matcher state: the previously consumed character (needed by `\b`) and
the remaining input. -/
abbrev RState := Option Char × List Char

/-- The regex fragment used by `IOCExtractionService`'s patterns. -/
inductive RE where
  | eps
  | cls (p : Char → Bool)
  | seq (a b : RE)
  | alt (a b : RE)
  | opt (a : RE)
  | starCls (p : Char → Bool)
  | plusCls (p : Char → Bool)
  | rep2Cls (p : Char → Bool)
  | wb

/-- Word-character test of an optional character (absent counts non-word),
with Python's `\w` semantics. -/
def wordOpt : Option Char → Bool
  | none => false
  | some c => pyWordChar c

/-- The word-character status just right of the current position. -/
def wordHead : List Char → Bool
  | [] => false
  | c :: _ => pyWordChar c

/-- States after a greedy `p*`: the longest run of `p`-characters first,
backing off one character at a time. -/
def starStates (p : Char → Bool) : Option Char → List Char → List RState
  | prev, [] => [(prev, [])]
  | prev, c :: rest =>
    if p c then starStates p (some c) rest ++ [(prev, c :: rest)]
    else [(prev, c :: rest)]

/-- The backtracking matcher: all states reachable by matching `re`, in the
priority order of Python's `re` engine (greedy quantifiers longest first,
alternatives left first). -/
def run : RE → RState → List RState
  | .eps, st => [st]
  | .cls _, (_, []) => []
  | .cls p, (_, c :: rest) => if p c then [(some c, rest)] else []
  | .seq a b, st => (run a st).flatMap (run b)
  | .alt a b, st => run a st ++ run b st
  | .opt a, st => run a st ++ [st]
  | .starCls p, (prev, s) => starStates p prev s
  | .plusCls _, (_, []) => []
  | .plusCls p, (_, c :: rest) =>
    if p c then starStates p (some c) rest else []
  | .rep2Cls _, (_, []) => []
  | .rep2Cls _, (_, [_]) => []
  | .rep2Cls p, (_, c1 :: c2 :: rest) =>
    if p c1 && p c2 then starStates p (some c2) rest else []
  | .wb, (prev, s) => if wordOpt prev != wordHead s then [(prev, s)] else []

/-- `finditer`: scan positions left to right, take at each position the
engine's first match, emit the matched text, and continue right after it
(advancing one character past an empty match).  The fuel is the remaining
input length plus one, which every step stays below. -/
def findIterAux (re : RE) : Nat → Option Char → List Char → List (List Char)
  | 0, _, _ => []
  | Nat.succ fuel, prev, s =>
    match (run re (prev, s)).head? with
    | some (pNext, rem) =>
      let consumed := s.length - rem.length
      if consumed = 0 then
        match s with
        | [] => [[]]
        | c :: rest => [] :: findIterAux re fuel (some c) rest
      else s.take consumed :: findIterAux re fuel pNext rem
    | none =>
      match s with
      | [] => []
      | c :: rest => findIterAux re fuel (some c) rest

/-- All non-overlapping matches of `re` in `s`, leftmost first. -/
def findAll (re : RE) (s : List Char) : List (List Char) :=
  findIterAux re (s.length + 1) none s

/-- A single pattern character, optionally case-insensitive
(`re.IGNORECASE` uses the lower-case fold on ASCII). -/
def charRE (ci : Bool) (c : Char) : RE :=
  .cls (fun x => if ci then x.toLower == c.toLower else x == c)

/-- A literal pattern string, optionally case-insensitive. -/
def reStr (ci : Bool) (s : String) : RE :=
  (s.toList.map (charRE ci)).foldr RE.seq .eps

/-! ## IOCScanner (`IOCExtractionService`) -/

/-- The class `[a-zA-Z0-9.-]` of hostname characters. -/
def hostChar (c : Char) : Bool := c.isAlphanum || c == '.' || c == '-'

/-- The negated class `[^\s"'<>\)]` that ends a URL path; `\s` is modelled
by the ASCII whitespace of `pyIsSpaceChar` (the claims scan ASCII text). -/
def urlStopChar (c : Char) : Bool :=
  pyIsSpaceChar c || c == '"' || c == '\'' || c == '<' || c == '>' || c == ')'

/-- The local-part class `[a-zA-Z0-9._%+-]` of the email pattern. -/
def emailLocalChar (c : Char) : Bool :=
  c.isAlphanum || c == '.' || c == '_' || c == '%' || c == '+' || c == '-'

/-- The url_with_proto pattern of `_extract_from_urls`:
`(https?://[a-zA-Z0-9][a-zA-Z0-9.-]*\.[a-zA-Z]{2,}(?:/[^\s"'<>\)]*)?)`
with `re.IGNORECASE`. -/
def reUrlWithProto : RE :=
  .seq (reStr true "http")
    (.seq (.opt (charRE true 's'))
      (.seq (reStr false "://")
        (.seq (.cls Char.isAlphanum)
          (.seq (.starCls hostChar)
            (.seq (.cls (· == '.'))
              (.seq (.rep2Cls Char.isAlpha)
                (.opt (.seq (.cls (· == '/'))
                  (.starCls (fun c => !urlStopChar c))))))))))

/-- The url_without_proto pattern of `_extract_from_urls`:
`\b([a-zA-Z0-9][a-zA-Z0-9.-]*\.[a-zA-Z]{2,}(?:[:/][^\s"'<>\)]+))` with
`re.IGNORECASE`. -/
def reUrlNoProto : RE :=
  .seq .wb
    (.seq (.cls Char.isAlphanum)
      (.seq (.starCls hostChar)
        (.seq (.cls (· == '.'))
          (.seq (.rep2Cls Char.isAlpha)
            (.seq (.cls (fun c => c == ':' || c == '/'))
              (.plusCls (fun c => !urlStopChar c)))))))

/-- The per-domain pattern of `_compile_domain_patterns`:
`\b([a-zA-Z0-9][a-zA-Z0-9.-]*<re.escape(d)>)\b` with `re.IGNORECASE`. -/
def reDomain (d : String) : RE :=
  .seq .wb
    (.seq (.cls Char.isAlphanum)
      (.seq (.starCls hostChar)
        (.seq (reStr true d) .wb)))

/-- The email pattern:
`\b[a-zA-Z0-9._%+-]+@[a-zA-Z0-9.-]+\.[a-zA-Z]{2,}\b`. -/
def reEmail : RE :=
  .seq .wb
    (.seq (.plusCls emailLocalChar)
      (.seq (.cls (· == '@'))
        (.seq (.plusCls hostChar)
          (.seq (.cls (· == '.'))
            (.seq (.rep2Cls Char.isAlpha) .wb)))))

/-- One octet of the IPv4 pattern: `25[0-5]|2[0-4][0-9]|[01]?[0-9][0-9]?`
(ordered alternation). -/
def reOctet : RE :=
  .alt (.seq (reStr false "25") (.cls (fun c => decide ('0' ≤ c ∧ c ≤ '5'))))
    (.alt (.seq (charRE false '2')
        (.seq (.cls (fun c => decide ('0' ≤ c ∧ c ≤ '4'))) (.cls Char.isDigit)))
      (.seq (.opt (.cls (fun c => c == '0' || c == '1')))
        (.seq (.cls Char.isDigit) (.opt (.cls Char.isDigit)))))

/-- The IPv4 pattern: `\b` octet `\.` octet `\.` octet `\.` octet `\b`. -/
def reIpv4 : RE :=
  .seq .wb
    (.seq reOctet
      (.seq (.cls (· == '.'))
        (.seq reOctet
          (.seq (.cls (· == '.'))
            (.seq reOctet
              (.seq (.cls (· == '.'))
                (.seq reOctet .wb)))))))

/-- The characters after the last occurrence of `ch` (all of `l` when `ch`
is absent): Python `l.rpartition(ch)[2]`. -/
def afterLastChar (ch : Char) (l : List Char) : List Char :=
  (l.reverse.takeWhile (· != ch)).reverse

/-- `urlparse(url).hostname` for the http/https URLs this code builds,
following CPython's `_hostinfo`: the netloc is the text between the
scheme's `//` and the next `/`, `?` or `#`; userinfo up to the last `@` is
dropped; a bracketed IPv6 host is the text inside `[...]`, otherwise a
`:port` suffix is dropped; an empty hostname gives `None`; the result is
lower-cased. -/
def urlparseHostname (url : String) : Option String :=
  let cs := url.toList
  let afterScheme :=
    if strStartsWith url "http://" then cs.drop 7
    else if strStartsWith url "https://" then cs.drop 8
    else cs
  let netloc := afterScheme.takeWhile (fun c => !(c == '/' || c == '?' || c == '#'))
  let hostinfo := afterLastChar '@' netloc
  let hostname :=
    if hostinfo.contains '[' then
      ((hostinfo.dropWhile (· != '[')).drop 1).takeWhile (· != ']')
    else hostinfo.takeWhile (· != ':')
  if hostname = [] then none
  else some (lowerStr (String.mk hostname))

/-- `IOCExtractionService._extract_hostname`: prefix `http://` when the
scheme is absent (after stripping leading slashes), parse, lower-case. -/
def extract_hostname (url : String) : Option String :=
  let url :=
    if strStartsWith url "http://" || strStartsWith url "https://" then url
    else "http://" ++ String.mk (url.toList.dropWhile (· == '/'))
  match urlparseHostname url with
  | none => none
  | some h => some (lowerStr h)

/-- Python `needle in hay` on strings. -/
def strContainsSub (hay needle : String) : Bool :=
  hay.toList.tails.any (fun t => needle.toList.isPrefixOf t)

/-- Python `s.endswith(suf)`. -/
def strEndsWith (s suf : String) : Bool :=
  suf.toList.reverse.isPrefixOf s.toList.reverse

/-- Python `s.rstrip(".")`. -/
def rstripDots (l : List Char) : List Char :=
  (l.reverse.dropWhile (· == '.')).reverse

/-- An IPv4 network `address/prefixLen` (from
`Settings.get_cidr_networks`). -/
structure Ipv4Net where
  address : Nat
  prefixLen : Nat
deriving DecidableEq, Repr

/-- One octet of a dotted quad for `ip_address`: digits only, value at most
255, no leading zero (Python 3.9+ rejects them). -/
def parseOctet (l : List Char) : Option Nat :=
  if l = [] then none
  else if l.any (fun c => !c.isDigit) then none
  else if 1 < l.length ∧ l.head? = some '0' then none
  else
    let n := l.foldl (fun acc c => acc * 10 + (c.toNat - 48)) 0
    if n ≤ 255 then some n else none

/-- `ip_address(s)` on dotted-quad text, as a 32-bit value. -/
def parseIpv4 (s : String) : Option Nat :=
  match (splitOnChar '.' s.toList).map parseOctet with
  | [some a, some b, some c, some d] =>
    some (((a * 256 + b) * 256 + c) * 256 + d)
  | _ => none

/-- `ip in net` for a parsed address: the network-prefix bits agree. -/
def ipInNet (ip : Nat) (net : Ipv4Net) : Bool :=
  decide (ip / 2 ^ (32 - net.prefixLen) = net.address / 2 ^ (32 - net.prefixLen))

/-- `str(ip_address(...))`: the normalised dotted quad. -/
def ipv4Str (ip : Nat) : String :=
  toString (ip / 2 ^ 24 % 256) ++ "." ++ toString (ip / 2 ^ 16 % 256)
    ++ "." ++ toString (ip / 2 ^ 8 % 256) ++ "." ++ toString (ip % 256)

/-- The scanning policy: watched domain substrings, watched email domains
and CIDR blocks, as produced by `Settings.get_domain_set`,
`get_email_domains_set` and `get_cidr_networks`.  The source holds the
first two as Python sets; the claims below use singleton policies, for
which iteration order is immaterial. -/
structure ScanSettings where
  domains : List String
  emailDomains : List String
  cidrs : List Ipv4Net

/-- Indicator construction, with the field order of `ExtractedIndicator`. -/
def mkIndicator (t : IndicatorType) (v fh rp : String) (ln : Nat) (ch : Int) :
    ExtractedIndicator :=
  { indicator_type := t, value := v, source_file_hash := fh,
    source_relative_path := rp, source_line := ln, channel_id := ch }

/-- `IOCExtractionService._extract_from_urls`: hostnames of protocol URLs,
then of protocol-less URLs (prefixing `http://`, rejecting candidates that
start with `.` or `/`); for each hostname one DOMAIN indicator when some
watched domain occurs in it as a substring. -/
def extract_from_urls (S : ScanSettings) (line : String) (line_num : Nat)
    (relative_path source_file_hash : String) (channel_id : Int) :
    List ExtractedIndicator :=
  if S.domains.isEmpty then []
  else
    let part1 := (findAll reUrlWithProto line.toList).filterMap (fun m =>
      match extract_hostname (String.mk m) with
      | none => none
      | some hostname =>
        if S.domains.any (fun t => strContainsSub (lowerStr hostname) t) then
          some (mkIndicator .domain hostname source_file_hash relative_path
            line_num channel_id)
        else none)
    let part2 := (findAll reUrlNoProto line.toList).filterMap (fun m =>
      let candidate := String.mk m
      if strStartsWith candidate "." || strStartsWith candidate "/" then none
      else
        match extract_hostname ("http://" ++ candidate) with
        | none => none
        | some hostname =>
          if S.domains.any (fun t => strContainsSub (lowerStr hostname) t) then
            some (mkIndicator .domain hostname source_file_hash relative_path
              line_num channel_id)
          else none)
    part1 ++ part2

/-- `IOCExtractionService._extract_domains_from_text`: run each watched
domain's pattern, lower-case group 1, strip trailing dots, keep non-empty
values of length at most 255. -/
def extract_domains_from_text (S : ScanSettings) (line : String)
    (line_num : Nat) (relative_path source_file_hash : String)
    (channel_id : Int) : List ExtractedIndicator :=
  S.domains.flatMap (fun d =>
    (findAll (reDomain d) line.toList).filterMap (fun m =>
      let value := String.mk (rstripDots (lowerStr (String.mk m)).toList)
      if value ≠ "" ∧ value.length ≤ 255 then
        some (mkIndicator .domain value source_file_hash relative_path
          line_num channel_id)
      else none))

/-- `IOCExtractionService._extract_emails`: lower-case each email match and
keep those of length at most 255 ending in `@d` for a watched `d`. -/
def extract_emails (S : ScanSettings) (line : String) (line_num : Nat)
    (relative_path source_file_hash : String) (channel_id : Int) :
    List ExtractedIndicator :=
  if S.emailDomains.isEmpty then []
  else
    (findAll reEmail line.toList).filterMap (fun m =>
      let email := lowerStr (String.mk m)
      if S.emailDomains.any (fun d => strEndsWith email ("@" ++ d)) then
        if email.length ≤ 255 then
          some (mkIndicator .email email source_file_hash relative_path
            line_num channel_id)
        else none
      else none)

/-- `IOCExtractionService._extract_ipv4`: parse each dotted-quad match and
keep those inside some watched CIDR, normalised by `str`. -/
def extract_ipv4 (S : ScanSettings) (line : String) (line_num : Nat)
    (relative_path source_file_hash : String) (channel_id : Int) :
    List ExtractedIndicator :=
  if S.cidrs.isEmpty then []
  else
    (findAll reIpv4 line.toList).filterMap (fun m =>
      match parseIpv4 (String.mk m) with
      | none => none
      | some ip =>
        if S.cidrs.any (ipInNet ip) then
          some (mkIndicator .ipv4 (ipv4Str ip) source_file_hash relative_path
            line_num channel_id)
        else none)

/-- `str.splitlines()` restricted to strings whose only line-break
character is the newline (true of every input below). -/
def pySplitlines (s : String) : List String :=
  if s.toList = [] then []
  else
    let parts := (splitOnChar '\n' s.toList).map String.mk
    if s.toList.getLast? = some '\n' then parts.dropLast else parts

/-- `IOCExtractionService._scan_content`: per 1-based line, URL hostnames
first, then bare domains, then emails, then IPv4 addresses. -/
def scan_content (S : ScanSettings) (content : String)
    (relative_path source_file_hash : String) (channel_id : Int) :
    List ExtractedIndicator :=
  (pySplitlines content).enum.flatMap (fun pair =>
    let line_num := pair.1 + 1
    let line := pair.2
    extract_from_urls S line line_num relative_path source_file_hash channel_id
    ++ extract_domains_from_text S line line_num relative_path source_file_hash
        channel_id
    ++ extract_emails S line line_num relative_path source_file_hash channel_id
    ++ extract_ipv4 S line line_num relative_path source_file_hash channel_id)

/-! ## Theorems about the scanner -/

/-- The claim C7 policy: watched domains `{example.com}`, watched email
domains `{watched.org}`, no CIDR blocks. -/
def policyC7 : ScanSettings := ⟨["example.com"], ["watched.org"], []⟩

/-- Claim C7: on a file whose line 2 contains both `foo.example.com` and
`bar@watched.org`, scanning with the C7 policy emits exactly one DOMAIN
indicator (`foo.example.com`) and one EMAIL indicator (`bar@watched.org`),
each carrying the 1-based line index 2. -/
theorem scan_content_domain_and_email (rp fh : String) (ch : Int) :
    scan_content policyC7 "\nfoo.example.com bar@watched.org" rp fh ch
      = [mkIndicator .domain "foo.example.com" fh rp 2 ch,
         mkIndicator .email "bar@watched.org" fh rp 2 ch] := by
  rfl

/-- The claim C9 policy: watched domains `{watched.org}` only. -/
def policyC9 : ScanSettings := ⟨["watched.org"], [], []⟩

/-- Claim C9: on a line containing `https://api.watched.org/v1/x` the
URL-hostname step emits the DOMAIN indicator twice (protocol and
protocol-less passes) and the bare-domain step emits it a third time, all
with the same value and line number, so one scan's output repeats the same
indicator identity and only the database upsert collapses it — folding the
output through the upsert leaves a single row. -/
theorem scan_content_not_duplicate_free (rp fh : String) (ch : Int) :
    scan_content policyC9 "https://api.watched.org/v1/x" rp fh ch
      = [mkIndicator .domain "api.watched.org" fh rp 1 ch,
         mkIndicator .domain "api.watched.org" fh rp 1 ch,
         mkIndicator .domain "api.watched.org" fh rp 1 ch]
    ∧ ((scan_content policyC9 "https://api.watched.org/v1/x" "p" "h" 7).foldl
        (fun t i => (sqlInsertIndicator t i 0).1) []).length = 1 := by
  exact ⟨rfl, rfl⟩

end Ingestor
